import Mathlib

/-!
MineralDB: verification of the top-K site aggregation core

Shallow embedding of the top-K aggregation pipeline of `DB.py`
(`select_topk_pairs`, `build_geo_fig`, `build_dot_fig`), shared by the
near-duplicate `get_top` implementations in `20DB.py` / `Top20DB.py`.

Modelling conventions:
* A dataframe row is a record with the five basic columns
  (`Sampling Point`, `lat`, `long`, `Type`, `YearMonth`) as typed fields
  plus an association list for the numeric value (determinand) columns.
* Missing / NaN cells are `none : Option Rat`; concentrations are `Rat`.
* `pandas` operations are translated pointwise:
  `filter(like=...)` is substring matching over the value columns,
  `dropna(how="all")` is a row filter, `sum(axis=1, min_count=1)` returns
  `none` exactly when every summand is missing, `groupby(...).mean()`
  lists the distinct keys in ascending key order with the arithmetic mean
  of the non-null values of the group, `nlargest(k, c)` is a stable descending
  sort on `c` followed by `take k` (empty for `k ≤ 0`), and the
  inner/left merges on the group key preserve left row order.
* In-place mutation (`rename(..., inplace=True)` in `build_dot_fig`)
  is modelled by state passing: the function returns the figures
  together with the post-state of its input mapping.
-/

namespace MineralDB

/-- One input observation row: the five basic columns of the CSV plus the
per-determinand value columns (`vals`), where `none` models a NaN cell. -/
structure Row where
  samplingPoint : String
  lat : Rat
  long : Rat
  rtype : String
  yearMonth : String
  vals : List (String × Option Rat)
deriving DecidableEq, Repr

/-- A dataframe: names of the value columns plus the rows. -/
structure Frame where
  valueCols : List String
  rows : List Row
deriving DecidableEq, Repr

/-- The group key `gb = ["Sampling Point", "lat", "long", "Type"]`. -/
structure Key where
  samplingPoint : String
  lat : Rat
  long : Rat
  rtype : String
deriving DecidableEq, Repr

/-- Group key of an input row. -/
def keyOf (r : Row) : Key :=
  ⟨r.samplingPoint, r.lat, r.long, r.rtype⟩

/-- Cell of a row in value column `c` (`none` when the column is absent
or the cell is NaN). -/
def rowVal (r : Row) (c : String) : Option Rat :=
  (r.vals.lookup c).join

/-- Test whether `hay` starts with `needle`. -/
def matchAt : List Char → List Char → Bool
  | [], _ => true
  | _ :: _, [] => false
  | a :: as, b :: bs => a == b && matchAt as bs

/-- Test whether `needle` occurs contiguously in `hay`. -/
def containsSeq (needle : List Char) : List Char → Bool
  | [] => needle.isEmpty
  | b :: bs => matchAt needle (b :: bs) || containsSeq needle bs

/-- Substring test of Python, `sub in s`. -/
def strContains (s sub : String) : Bool :=
  containsSeq sub.data s.data

/-- Embedding of `base.filter(like=mineral, axis=1).columns`, over the value
columns: the value columns whose name contains `mineral`. -/
def matchedCols (cols : List String) (mineral : String) : List String :=
  cols.filter (fun c => strContains c mineral)

/-- Embedding of `base[mm].sum(axis=1, min_count=1)` for one row: sum of the non-null
cells among the matched columns, `none` when all of them are null. -/
def totalVal (mm0 : List String) (r : Row) : Option Rat :=
  if (mm0.filterMap (rowVal r)).isEmpty then none
  else some (mm0.filterMap (rowVal r)).sum

/-- Value of metric `m` on a row of `Filtered_Base`: the synthesized
`"Total"` column (which overwrites any like-named source column) when at
least two columns matched, otherwise the source cell itself. -/
def metricVal (base : Frame) (mineral : String) (r : Row) (m : String) : Option Rat :=
  if m = "Total" ∧ 1 < (matchedCols base.valueCols mineral).length
  then totalVal (matchedCols base.valueCols mineral) r
  else rowVal r m

/-- Rows of `Filtered_Base`: `dropna(subset=mm, how="all")` applied to
`base` (a no-op when no column matches, per the `if mm:` guard). -/
def FRows (base : Frame) (mineral : String) : List Row :=
  if (matchedCols base.valueCols mineral).isEmpty then base.rows
  else base.rows.filter
    (fun r => (matchedCols base.valueCols mineral).any (fun c => (rowVal r c).isSome))

/-- The metric list `mm`: the matched columns, with `"Total"` appended
when more than one column matched. -/
def mmList (base : Frame) (mineral : String) : List String :=
  if 1 < (matchedCols base.valueCols mineral).length
  then matchedCols base.valueCols mineral ++ ["Total"]
  else matchedCols base.valueCols mineral

/-- The working set `fb` for metric `m`, i.e. `Filtered_Base`
restricted to rows whose `m`-cell is non-null (`dropna(subset=m)`). -/
def fb (base : Frame) (mineral m : String) : List Row :=
  (FRows base mineral).filter (fun r => (metricVal base mineral r m).isSome)

/-- Strict comparison of characters by code point. -/
def charLtB (a b : Char) : Bool := Nat.blt a.toNat b.toNat

/-- Lexicographic string order of Python on the character lists. -/
def strLtB : List Char → List Char → Bool
  | _, [] => false
  | [], _ :: _ => true
  | a :: as, b :: bs => charLtB a b || (a == b && strLtB as bs)

/-- Ascending lexicographic comparison of group keys (Python string and
numeric order), the order `groupby(..., sort=True)` lists groups in. -/
def keyLeB (a b : Key) : Bool :=
  if a.samplingPoint = b.samplingPoint then
    if a.lat = b.lat then
      if a.long = b.long then
        if a.rtype = b.rtype then true else strLtB a.rtype.data b.rtype.data
      else decide (a.long < b.long)
    else decide (a.lat < b.lat)
  else strLtB a.samplingPoint.data b.samplingPoint.data

/-- Propositional form of `keyLeB`. -/
def keyLe (a b : Key) : Prop := keyLeB a b = true

instance : DecidableRel keyLe := fun a b => instDecidableEqBool (keyLeB a b) true

/-- The non-null values of metric `m` within the group `κ` of `rows`
(the observations the group mean is taken over). -/
def groupVals (rows : List Row) (f : Row → Option Rat) (κ : Key) : List Rat :=
  (rows.filter (fun r => decide (keyOf r = κ))).filterMap f

/-- Arithmetic mean. -/
def mean (l : List Rat) : Rat := l.sum / l.length

/-- The distinct group keys of the working set, in the ascending order
`groupby` emits them. -/
def sortedGroupKeys (base : Frame) (mineral m : String) : List Key :=
  List.insertionSort keyLe (((fb base mineral m).map keyOf).dedup)

/-- A row of `means_df`: one group key with its group mean. -/
structure MeanEntry where
  key : Key
  avg : Rat
deriving DecidableEq, Repr

/-- The table `means_df`: per-group mean of metric `m` over the working set `fb`
(column `"average monthly concentration"`), one row per group. -/
def means_df (base : Frame) (mineral m : String) : List MeanEntry :=
  (sortedGroupKeys base mineral m).map
    (fun κ => ⟨κ, mean (groupVals (fb base mineral m) (fun r => metricVal base mineral r m) κ)⟩)

/-- Descending order on group means, the order `nlargest` ranks by. -/
def avgGe (a b : MeanEntry) : Prop := b.avg ≤ a.avg

instance : DecidableRel avgGe := fun a b =>
  (inferInstance : Decidable (b.avg ≤ a.avg))

instance : IsTotal MeanEntry avgGe := ⟨fun a b => le_total b.avg a.avg⟩

instance : IsTrans MeanEntry avgGe := ⟨fun _ _ _ h1 h2 => le_trans h2 h1⟩

/-- Embedding of `means_df.nlargest(k, ...)` on the mean column: stable
descending sort on the mean, first `k` rows (empty for `k ≤ 0`). -/
def nlargest (k : Int) (l : List MeanEntry) : List MeanEntry :=
  (List.insertionSort avgGe l).take k.toNat

/-- The selection `top_keys`: group keys of the top-`k` mean rows. -/
def top_keys (base : Frame) (mineral m : String) (k : Int) : List Key :=
  (nlargest k (means_df base mineral m)).map MeanEntry.key

/-- An output row: the basic columns plus `"monthly concentration"`
(the metric cell) and `"average monthly concentration"` (the group mean
attached by the left merge, hence optional). -/
structure OutRow where
  samplingPoint : String
  lat : Rat
  long : Rat
  rtype : String
  yearMonth : String
  monthly : Option Rat
  avg : Option Rat
deriving DecidableEq, Repr

/-- Group key of an output row. -/
def outKey (r : OutRow) : Key :=
  ⟨r.samplingPoint, r.lat, r.long, r.rtype⟩

/-- Output row built from a retained `Filtered_Base` row: the basic
columns, the metric cell, and the group mean found by the left merge. -/
def mkOut (base : Frame) (mineral m : String) (r : Row) : OutRow :=
  ⟨r.samplingPoint, r.lat, r.long, r.rtype, r.yearMonth,
   metricVal base mineral r m,
   ((means_df base mineral m).find?
     (fun e => decide (e.key = keyOf r))).map MeanEntry.avg⟩

/-- Steps 3-4 for one metric: inner-merge `Filtered_Base` with the
top-`k` keys (i.e. keep its rows whose key was selected, in order),
left-merge the group mean, and select the output columns. -/
def outputFor (base : Frame) (mineral m : String) (k : Int) : List OutRow :=
  (FRows base mineral).filterMap (fun r =>
    if keyOf r ∈ top_keys base mineral m k then some (mkOut base mineral m r)
    else none)

/-- Embedding of `select_topk_pairs(base, mineral, k)`: the output mapping from each
metric in `mm` to its filtered, mean-annotated rows. -/
def select_topk_pairs (base : Frame) (mineral : String) (k : Int) :
    List (String × List OutRow) :=
  (mmList base mineral).map (fun m => (m, outputFor base mineral m k))

/-- The geo figure: the data it is drawn from plus its title. -/
structure GeoFig where
  rows : List OutRow
  title : String
deriving DecidableEq, Repr

/-- Failure of `build_geo_fig`: `point_agg["Total"]` raising `KeyError`. -/
inductive GeoErr
  | keyError
deriving DecidableEq, Repr

/-- Embedding of `build_geo_fig(point_agg, mineral, k)`: reads the `"Total"` entry
(a `KeyError` when absent) and builds the scatter-geo figure from it. -/
def build_geo_fig (point_agg : List (String × List OutRow)) (mineral : String)
    (k : Int) : Except GeoErr GeoFig :=
  match point_agg.lookup "Total" with
  | none => .error .keyError
  | some df =>
      .ok ⟨df, "UK - " ++ mineral ++ " Distribution (Top " ++ toString k ++ " Sites)"⟩

/-- A dataframe cell as seen by `build_dot_fig`: a string or a
(possibly missing) number. -/
inductive CVal
  | s (v : String)
  | q (v : Option Rat)
deriving DecidableEq, Repr

/-- A named-column dataframe (column name ↦ column cells), the view on
which `rename(columns=..., inplace=True)` acts. -/
abbrev NFrame := List (String × List CVal)

/-- The column renaming `build_dot_fig` applies in place. -/
def renameCol (c : String) : String :=
  if c = "monthly concentration" then "Detected Concentration"
  else if c = "YearMonth" then "Time" else c

/-- The in-place column rename of `build_dot_fig` as a frame transformer. -/
def renameFrame (d : NFrame) : NFrame :=
  d.map (fun p => (renameCol p.1, p.2))

/-- Numeric cells of a column. -/
def colNums (l : List CVal) : List Rat :=
  l.filterMap (fun v => match v with | .q (some x) => some x | _ => none)

/-- Embedding of the pandas series minimum: least non-null numeric cell, `none` when there is
none (the all-NaN case of pandas). -/
def colMin (l : List CVal) : Option Rat :=
  match colNums l with
  | [] => none
  | x :: xs => some (xs.foldl min x)

/-- Embedding of the pandas series maximum: greatest non-null numeric cell. -/
def colMax (l : List CVal) : Option Rat :=
  match colNums l with
  | [] => none
  | x :: xs => some (xs.foldl max x)

/-- Column of a frame by name (empty when absent). -/
def lookupCol (d : NFrame) (c : String) : List CVal :=
  (d.lookup c).getD []

/-- The y-axis padding `max(1.0, 0.05*(ymax-ymin) if ymax>ymin else 1.0)`. -/
def pad (a b : Rat) : Rat :=
  max 1 (if a < b then (b - a) / 20 else 1)

/-- A dot figure: title, data frame and optional y-axis range. -/
structure DotFig where
  title : String
  data : NFrame
  yrange : Option (Rat × Rat)
deriving DecidableEq, Repr

/-- The y-axis range of a dot figure: `[ymin - pad, ymax + pad]` over
the non-null detected concentrations, absent when there are none. -/
def dotYr (d : NFrame) : Option (Rat × Rat) :=
  match colMin (lookupCol d "Detected Concentration"),
        colMax (lookupCol d "Detected Concentration") with
  | some a, some b => some (a - pad a b, b + pad a b)
  | _, _ => none

/-- One iteration of the `build_dot_fig` loop on `(metricName, frame)`:
rename the two display columns in place, build the figure from the
renamed frame, and return the figure with the post-state of the frame. -/
def dotStep (p : String × NFrame) : DotFig × (String × NFrame) :=
  (⟨"Concentration of " ++ p.1, renameFrame p.2, dotYr (renameFrame p.2)⟩,
   (p.1, renameFrame p.2))

/-- Embedding of `build_dot_fig(month_agg, ...)`: the figures of all metric frames,
paired with the post-state of `month_agg` (the in-place renames). -/
def build_dot_fig (month_agg : List (String × NFrame)) :
    List DotFig × List (String × NFrame) :=
  ((month_agg.map dotStep).map Prod.fst, (month_agg.map dotStep).map Prod.snd)

/-! ### Concrete inputs used by counterexamples and witnesses -/

/-- A row of the two-determinand demo table with a null `"MA"` cell. -/
def rA : Row := ⟨"S1", 51, -1, "T", "2025-01", [("MA", none), ("MB", some 5)]⟩

/-- A row of the two-determinand demo table with a null `"MB"` cell. -/
def rB : Row := ⟨"S1", 51, -1, "T", "2025-02", [("MA", some 3), ("MB", none)]⟩

/-- Two-column table whose rows each carry one null matched cell. -/
def cex5Base : Frame := ⟨["MA", "MB"], [rA, rB]⟩

/-- Demo rows: two sites with data, plus an all-null row at a third. -/
def d1 : Row := ⟨"S1", 51, -1, "T", "2025-01", [("MA", some 4), ("MB", some 2)]⟩

/-- Second observation of site `S1`. -/
def d2 : Row := ⟨"S1", 51, -1, "T", "2025-02", [("MA", some 6), ("MB", none)]⟩

/-- Observation of site `S2`. -/
def d3 : Row := ⟨"S2", 52, -2, "T", "2025-01", [("MA", some 1), ("MB", some 10)]⟩

/-- All-null observation of site `S3`. -/
def d4 : Row := ⟨"S3", 53, -3, "T", "2025-01", [("MA", none), ("MB", none)]⟩

/-- Demo table: mineral `"M"` matches the two columns `MA`, `MB`. -/
def demoBase : Frame := ⟨["MA", "MB"], [d1, d2, d3, d4]⟩

/-- Group key of site `S1` in the demo table. -/
def kS1 : Key := ⟨"S1", 51, -1, "T"⟩

/-- Group key of site `S2` in the demo table. -/
def kS2 : Key := ⟨"S2", 52, -2, "T"⟩

/-- A table whose single value column is literally named `"Total"`. -/
def cex9Base : Frame := ⟨["Total"], [⟨"S", 0, 0, "T", "2025-01", [("Total", some 2)]⟩]⟩

/-- An observation with a single magnesium reading. -/
def o1 : Row := ⟨"S1", 51, -1, "T", "2025-01", [("Magnesium (ug/l)", some 7)]⟩

/-- A table where the chosen mineral matches exactly one column. -/
def oneColBase : Frame := ⟨["Magnesium (ug/l)"], [o1]⟩

/-- A table with one value column and no rows. -/
def emptyBase : Frame := ⟨["A"], []⟩

/-- A `month_agg` mapping of the shape `select_topk_pairs` produces,
with the `"monthly concentration"` and `"YearMonth"` columns present. -/
def agg6 : List (String × NFrame) :=
  [("Magnesium", [("monthly concentration", [CVal.q (some 1)]),
                  ("YearMonth", [CVal.s "2025-01"])])]

/-! ### Helper lemmas -/

/-- A `filterMap` ignores elements that a previous `isSome` filter kept out. -/
theorem filterMap_filter_isSome {α β : Type _} (f : α → Option β) (l : List α) :
    (l.filter (fun a => (f a).isSome)).filterMap f = l.filterMap f := by
  induction l with
  | nil => rfl
  | cons a l ih =>
      cases hfa : f a <;>
        simp [List.filter_cons, List.filterMap_cons, hfa, ih]

/-- Filtering by a predicate that only removes `f`-null elements does
not change `filterMap f`. -/
theorem filterMap_filter_of_none {α β : Type _} {p : α → Bool} (f : α → Option β)
    (l : List α) (h : ∀ a, p a = false → f a = none) :
    (l.filter p).filterMap f = l.filterMap f := by
  induction l with
  | nil => rfl
  | cons a l ih =>
      by_cases hp : p a = true
      · simp [List.filter_cons, hp, List.filterMap_cons, ih]
      · have hfa : f a = none := h a (by simpa using hp)
        simp [List.filter_cons, hp, List.filterMap_cons, hfa, ih]

/-- Two successive `filter`s commute. -/
theorem filter_swap {α : Type _} (p q : α → Bool) (l : List α) :
    (l.filter p).filter q = (l.filter q).filter p := by
  induction l with
  | nil => rfl
  | cons a l ih =>
      by_cases hp : p a = true <;> by_cases hq : q a = true <;>
        simp [List.filter_cons, hp, hq, ih]

/-- Characterization of membership in the output mapping of the aggregator. -/
theorem mem_select {base : Frame} {mineral : String} {k : Int}
    {m : String} {rows : List OutRow} :
    (m, rows) ∈ select_topk_pairs base mineral k ↔
      m ∈ mmList base mineral ∧ rows = outputFor base mineral m k := by
  unfold select_topk_pairs
  rw [List.mem_map]
  constructor
  · rintro ⟨m', hm', heq⟩
    injection heq with h1 h2
    subst h1
    exact ⟨hm', h2.symm⟩
  · rintro ⟨h1, rfl⟩
    exact ⟨m, h1, rfl⟩

/-- Every output row arises from a retained `Filtered_Base` row whose
group key was selected. -/
theorem of_mem_outputFor {base : Frame} {mineral m : String} {k : Int} {r : OutRow}
    (h : r ∈ outputFor base mineral m k) :
    ∃ r0, r0 ∈ FRows base mineral ∧ keyOf r0 ∈ top_keys base mineral m k ∧
      r = mkOut base mineral m r0 := by
  unfold outputFor at h
  rw [List.mem_filterMap] at h
  obtain ⟨r0, h0, heq⟩ := h
  by_cases hk : keyOf r0 ∈ top_keys base mineral m k
  · rw [if_pos hk] at heq
    injection heq with h'
    exact ⟨r0, h0, hk, h'.symm⟩
  · rw [if_neg hk] at heq
    cases heq

/-- Every retained `Filtered_Base` row with a selected key produces an
output row. -/
theorem mkOut_mem_outputFor {base : Frame} {mineral m : String} {k : Int} {r0 : Row}
    (h0 : r0 ∈ FRows base mineral) (hk : keyOf r0 ∈ top_keys base mineral m k) :
    mkOut base mineral m r0 ∈ outputFor base mineral m k := by
  unfold outputFor
  exact List.mem_filterMap.mpr ⟨r0, h0, by rw [if_pos hk]⟩

/-- A `means_df` row records the mean of the working-set
values, and its key is a key of the working set. -/
theorem avg_of_mem_means {base : Frame} {mineral m : String} {e : MeanEntry}
    (he : e ∈ means_df base mineral m) :
    e.avg = mean (groupVals (fb base mineral m) (fun r => metricVal base mineral r m) e.key)
      ∧ e.key ∈ ((fb base mineral m).map keyOf).dedup := by
  unfold means_df at he
  rw [List.mem_map] at he
  obtain ⟨κ, hκ, rfl⟩ := he
  unfold sortedGroupKeys at hκ
  exact ⟨rfl, (List.perm_insertionSort keyLe _).mem_iff.mp hκ⟩

/-- Every working-set group key yields a `means_df` row. -/
theorem mem_means_of_key {base : Frame} {mineral m : String} {κ : Key}
    (h : κ ∈ ((fb base mineral m).map keyOf).dedup) :
    (⟨κ, mean (groupVals (fb base mineral m) (fun r => metricVal base mineral r m) κ)⟩ : MeanEntry)
      ∈ means_df base mineral m := by
  unfold means_df
  rw [List.mem_map]
  refine ⟨κ, ?_, rfl⟩
  unfold sortedGroupKeys
  exact (List.perm_insertionSort keyLe _).mem_iff.mpr h

/-- A group that occurs in the working set has at least one non-null
observation. -/
theorem groupVals_fb_ne_nil {base : Frame} {mineral m : String} {κ : Key}
    (h : κ ∈ ((fb base mineral m).map keyOf).dedup) :
    groupVals (fb base mineral m) (fun r => metricVal base mineral r m) κ ≠ [] := by
  rw [List.mem_dedup, List.mem_map] at h
  obtain ⟨r1, hr1, hk⟩ := h
  have hr1' := hr1
  unfold fb at hr1'
  have hs : (metricVal base mineral r1 m).isSome := by
    simpa using (List.mem_filter.mp hr1').2
  obtain ⟨v, hv⟩ := Option.isSome_iff_exists.mp hs
  intro hnil
  have hmem : v ∈ groupVals (fb base mineral m) (fun r => metricVal base mineral r m) κ := by
    unfold groupVals
    exact List.mem_filterMap.mpr
      ⟨r1, List.mem_filter.mpr ⟨hr1, by simpa using hk⟩, hv⟩
  rw [hnil] at hmem
  exact List.not_mem_nil v hmem

/-- Every selected key is the key of some `means_df` row. -/
theorem exists_mean_of_mem_top_keys {base : Frame} {mineral m : String} {k : Int} {κ : Key}
    (h : κ ∈ top_keys base mineral m k) :
    ∃ e ∈ means_df base mineral m, e.key = κ := by
  unfold top_keys nlargest at h
  rw [List.mem_map] at h
  obtain ⟨e, he, rfl⟩ := h
  exact ⟨e, (List.perm_insertionSort avgGe _).mem_iff.mp (List.take_subset _ _ he), rfl⟩

/-- The left merge finds the mean of any key that has a `means_df` row,
and attaches exactly the working-set mean of that group. -/
theorem find_means_eq {base : Frame} {mineral m : String} {κ : Key}
    (h : ∃ e ∈ means_df base mineral m, e.key = κ) :
    ((means_df base mineral m).find? (fun e => decide (e.key = κ))).map MeanEntry.avg
      = some (mean (groupVals (fb base mineral m) (fun r => metricVal base mineral r m) κ)) := by
  cases hf : (means_df base mineral m).find? (fun e => decide (e.key = κ)) with
  | none =>
      rw [List.find?_eq_none] at hf
      obtain ⟨e, he, hk⟩ := h
      exact absurd (by simpa using hk) (hf e he)
  | some e0 =>
      have hp : decide (e0.key = κ) = true :=
        @List.find?_some MeanEntry (fun e => decide (e.key = κ)) e0
          (means_df base mineral m) hf
      have hk0 : e0.key = κ := of_decide_eq_true hp
      have havg := (avg_of_mem_means (List.mem_of_find?_eq_some hf)).1
      rw [hk0] at havg
      simp [havg]

/-- When `k` is at least the number of groups, `nlargest` keeps the
whole sorted list, so the key of every group is selected. -/
theorem mem_top_keys_of_le {base : Frame} {mineral m : String} {k : Int} {e : MeanEntry}
    (hlen : (means_df base mineral m).length ≤ k.toNat)
    (he : e ∈ means_df base mineral m) :
    e.key ∈ top_keys base mineral m k := by
  have hperm := List.perm_insertionSort avgGe (means_df base mineral m)
  have hlen' : (List.insertionSort avgGe (means_df base mineral m)).length ≤ k.toNat := by
    rw [hperm.length_eq]; exact hlen
  unfold top_keys nlargest
  rw [List.take_of_length_le hlen', List.mem_map]
  exact ⟨e, hperm.mem_iff.mpr he, rfl⟩

/-- Rows dropped by `dropna(how="all")` are null in every metric of `mm`. -/
theorem metricVal_eq_none_of_all_null {base : Frame} {mineral m : String}
    (hm : m ∈ mmList base mineral) (r : Row)
    (h : (matchedCols base.valueCols mineral).any (fun c => (rowVal r c).isSome) = false) :
    metricVal base mineral r m = none := by
  rw [List.any_eq_false] at h
  unfold metricVal
  split
  · unfold totalVal
    have hnil : (matchedCols base.valueCols mineral).filterMap (rowVal r) = [] := by
      rw [List.filterMap_eq_nil_iff]
      intro c hc
      have := h c hc
      simpa [Option.not_isSome_iff_eq_none] using this
    simp [hnil]
  · rename_i hnot
    have hmem : m ∈ matchedCols base.valueCols mineral := by
      unfold mmList at hm
      split at hm
      · rcases List.mem_append.mp hm with h1 | h1
        · exact h1
        · rename_i hlen
          simp only [List.mem_singleton] at h1
          subst h1
          exact absurd ⟨rfl, hlen⟩ hnot
      · exact hm
    have := h m hmem
    simpa [Option.not_isSome_iff_eq_none] using this

/-- The working-set observations of a group are exactly the non-null
observations of that group in the original input. -/
theorem groupVals_fb_eq {base : Frame} {mineral m : String}
    (hm : m ∈ mmList base mineral) (κ : Key) :
    groupVals (fb base mineral m) (fun r => metricVal base mineral r m) κ
      = groupVals base.rows (fun r => metricVal base mineral r m) κ := by
  unfold fb groupVals
  rw [filter_swap, filterMap_filter_isSome]
  unfold FRows
  split
  · rfl
  · rw [filter_swap]
    exact filterMap_filter_of_none _ _
      (fun r hr => metricVal_eq_none_of_all_null hm r hr)

/-! ### Claims -/

/-- C1: for every retained group, every row in the filtered output
filtered output carries a group mean (`"average monthly concentration"`)
equal to the arithmetic mean of the metric value over exactly the
non-null values of the rows of that group in the original input; a group
whose rows have zero non-null values produces no group-mean entry and
is never selected (no `means_df` row, not in `top_keys`, no output row). -/
theorem c1_group_mean (base : Frame) (mineral : String) (k : Int)
    (m : String) (rows : List OutRow)
    (hm : (m, rows) ∈ select_topk_pairs base mineral k) :
    (∀ r ∈ rows,
        r.avg = some (mean (groupVals base.rows
          (fun r0 => metricVal base mineral r0 m) (outKey r)))
        ∧ groupVals base.rows (fun r0 => metricVal base mineral r0 m) (outKey r) ≠ [])
    ∧ (∀ κ : Key,
        groupVals base.rows (fun r0 => metricVal base mineral r0 m) κ = [] →
          (∀ e ∈ means_df base mineral m, e.key ≠ κ)
          ∧ κ ∉ top_keys base mineral m k
          ∧ ∀ r ∈ rows, outKey r ≠ κ) := by
  obtain ⟨hmm, rfl⟩ := mem_select.mp hm
  constructor
  · intro r hr
    obtain ⟨r0, h0, htk, rfl⟩ := of_mem_outputFor hr
    obtain ⟨e, he, hek⟩ := exists_mean_of_mem_top_keys htk
    constructor
    · show ((means_df base mineral m).find?
          (fun e => decide (e.key = keyOf r0))).map MeanEntry.avg = _
      rw [← groupVals_fb_eq hmm]
      exact find_means_eq ⟨e, he, hek⟩
    · show groupVals base.rows _ (keyOf r0) ≠ []
      rw [← groupVals_fb_eq hmm]
      have hkey := (avg_of_mem_means he).2
      rw [hek] at hkey
      exact groupVals_fb_ne_nil hkey
  · intro κ h0
    have hfb : groupVals (fb base mineral m)
        (fun r0 => metricVal base mineral r0 m) κ = [] := by
      rw [groupVals_fb_eq hmm]; exact h0
    have hnomean : ∀ e ∈ means_df base mineral m, e.key ≠ κ := by
      intro e he hek
      have hkey := (avg_of_mem_means he).2
      rw [hek] at hkey
      exact groupVals_fb_ne_nil hkey hfb
    refine ⟨hnomean, ?_, ?_⟩
    · intro htk
      obtain ⟨e, he, hek⟩ := exists_mean_of_mem_top_keys htk
      exact hnomean e he hek
    · intro r hr hk
      obtain ⟨r0, h0, htk, rfl⟩ := of_mem_outputFor hr
      have hk' : keyOf r0 = κ := hk
      rw [hk'] at htk
      obtain ⟨e, he, hek⟩ := exists_mean_of_mem_top_keys htk
      exact hnomean e he hek

/-- The mean-annotated output row of demo observation `d1` is in the
`"MA"` output (used to instantiate several witnesses). -/
theorem d1_out_mem :
    mkOut demoBase "M" "MA" d1 ∈ outputFor demoBase "M" "MA" 2 :=
  mkOut_mem_outputFor (by decide)
    (mem_top_keys_of_le (by decide)
      (@mem_means_of_key demoBase "M" "MA" kS1 (by decide)))

/-- C1 witness: in the demo table, the output row of observation `d1`
for metric `"MA"` carries the mean of the non-null `MA` values at `S1`. -/
theorem c1_witness :
    (("MA", outputFor demoBase "M" "MA" 2) ∈ select_topk_pairs demoBase "M" 2)
    ∧ (mkOut demoBase "M" "MA" d1).avg
        = some (mean (groupVals demoBase.rows
            (fun r0 => metricVal demoBase "M" r0 "MA")
            (outKey (mkOut demoBase "M" "MA" d1)))) :=
  ⟨mem_select.mpr ⟨by decide, rfl⟩,
   ((c1_group_mean demoBase "M" 2 "MA" (outputFor demoBase "M" "MA" 2)
      (mem_select.mpr ⟨by decide, rfl⟩)).1 (mkOut demoBase "M" "MA" d1) d1_out_mem).1⟩

/-- C10: in the filtered output of every metric, the attached group
mean of every row is non-null: the left merge attaching means never
misses, because the key of every retained row is among the selected
keys, which all have a `means_df` row. -/
theorem c10_avg_nonnull (base : Frame) (mineral : String) (k : Int)
    (m : String) (rows : List OutRow)
    (hm : (m, rows) ∈ select_topk_pairs base mineral k) :
    ∀ r ∈ rows, r.avg.isSome := by
  obtain ⟨hmm, rfl⟩ := mem_select.mp hm
  intro r hr
  obtain ⟨r0, h0, htk, rfl⟩ := of_mem_outputFor hr
  obtain ⟨e, he, hek⟩ := exists_mean_of_mem_top_keys htk
  show (((means_df base mineral m).find?
      (fun e => decide (e.key = keyOf r0))).map MeanEntry.avg).isSome
  rw [find_means_eq ⟨e, he, hek⟩]
  rfl

/-- C10 witness: a concrete output row of the demo table carries a
non-null group mean. -/
theorem c10_witness :
    (("MA", outputFor demoBase "M" "MA" 2) ∈ select_topk_pairs demoBase "M" 2)
    ∧ (mkOut demoBase "M" "MA" d1).avg.isSome :=
  ⟨mem_select.mpr ⟨by decide, rfl⟩,
   c10_avg_nonnull demoBase "M" 2 "MA" (outputFor demoBase "M" "MA" 2)
     (mem_select.mpr ⟨by decide, rfl⟩) (mkOut demoBase "M" "MA" d1) d1_out_mem⟩

/-- C8: for an empty sequence of input rows, the aggregator returns an
empty row list for every metric (and, being total, raises nothing). -/
theorem c8_empty_input (cols : List String) (mineral : String) (k : Int)
    (m : String) (rows : List OutRow)
    (hm : (m, rows) ∈ select_topk_pairs ⟨cols, []⟩ mineral k) :
    rows = [] := by
  obtain ⟨hmm, rfl⟩ := mem_select.mp hm
  have hF : FRows ⟨cols, []⟩ mineral = [] := by
    unfold FRows
    split <;> rfl
  unfold outputFor
  rw [hF]
  rfl

/-- C8 witness: the empty table with one value column yields the empty
output for its one metric. -/
theorem c8_witness :
    (("A", outputFor emptyBase "A" "A" 5) ∈ select_topk_pairs emptyBase "A" 5)
    ∧ outputFor emptyBase "A" "A" 5 = [] :=
  ⟨mem_select.mpr ⟨by decide, rfl⟩,
   c8_empty_input ["A"] "A" 5 "A" (outputFor emptyBase "A" "A" 5)
     (mem_select.mpr ⟨by decide, rfl⟩)⟩

/-- C7 counterexample: at `k = 0` the aggregator does not reject the
call; it returns normally, with an empty row list for every metric. -/
theorem c7_counterexample :
    select_topk_pairs cex5Base "M" 0 = [("MA", []), ("MB", []), ("Total", [])] := by
  decide

/-- C7 amended: the aggregator performs no validation of `k`; for
`k ≤ 0` it returns normally and the row list of every metric is empty
(`nlargest` selects no groups). -/
theorem c7_amended_empty (base : Frame) (mineral : String) (k : Int)
    (hk : k ≤ 0) :
    ∀ p ∈ select_topk_pairs base mineral k, p.2 = [] := by
  rintro ⟨m, rows⟩ hp
  obtain ⟨hmm, rfl⟩ := mem_select.mp hp
  show outputFor base mineral m k = []
  have htk : top_keys base mineral m k = [] := by
    unfold top_keys nlargest
    rw [Int.toNat_of_nonpos hk, List.take_zero]
    rfl
  unfold outputFor
  rw [List.filterMap_eq_nil_iff]
  intro r hr
  rw [htk]
  simp

/-- C7 amended witness: at `k = 0` on the demo table, metric `"MA"`
yields no rows. -/
theorem c7_witness :
    ((0 : Int) ≤ 0) ∧ outputFor demoBase "M" "MA" 0 = [] :=
  ⟨le_refl 0,
   c7_amended_empty demoBase "M" 0 (le_refl 0)
     ("MA", outputFor demoBase "M" "MA" 0) (mem_select.mpr ⟨by decide, rfl⟩)⟩

/-- C2: for every input and every `k`, the filtered output of a metric
contains at most `k` distinct group keys; and whenever `k` is at least
the number of groups having a mean, every such group appears in the
output (no filtering occurs). -/
theorem c2_topk_bound (base : Frame) (mineral : String) (k : Int)
    (m : String) (rows : List OutRow)
    (hm : (m, rows) ∈ select_topk_pairs base mineral k) :
    ((rows.map outKey).toFinset.card ≤ k.toNat)
    ∧ ((means_df base mineral m).length ≤ k.toNat →
        ∀ e ∈ means_df base mineral m, ∃ r ∈ rows, outKey r = e.key) := by
  obtain ⟨hmm, rfl⟩ := mem_select.mp hm
  constructor
  · have hsub : (List.map outKey (outputFor base mineral m k)).toFinset
        ⊆ (top_keys base mineral m k).toFinset := by
      intro κ hκ
      rw [List.mem_toFinset] at hκ ⊢
      rw [List.mem_map] at hκ
      obtain ⟨r, hr, rfl⟩ := hκ
      obtain ⟨r0, h0, htk, rfl⟩ := of_mem_outputFor hr
      exact htk
    calc (List.map outKey (outputFor base mineral m k)).toFinset.card
        ≤ (top_keys base mineral m k).toFinset.card := Finset.card_le_card hsub
      _ ≤ (top_keys base mineral m k).length := List.toFinset_card_le _
      _ ≤ k.toNat := by
          unfold top_keys nlargest
          rw [List.length_map, List.length_take]
          exact min_le_left _ _
  · intro hlen e he
    have hetop : e.key ∈ top_keys base mineral m k := mem_top_keys_of_le hlen he
    have hkey := (avg_of_mem_means he).2
    rw [List.mem_dedup, List.mem_map] at hkey
    obtain ⟨r1, hr1, hk1⟩ := hkey
    have hrF : r1 ∈ FRows base mineral := by
      have := hr1
      unfold fb at this
      exact List.mem_of_mem_filter this
    refine ⟨mkOut base mineral m r1, mkOut_mem_outputFor hrF ?_, hk1⟩
    rw [hk1]
    exact hetop

/-- C2 witness: on the demo table with `k = 2`, the `"MA"` output has
at most two distinct group keys. -/
theorem c2_witness :
    (("MA", outputFor demoBase "M" "MA" 2) ∈ select_topk_pairs demoBase "M" 2)
    ∧ ((outputFor demoBase "M" "MA" 2).map outKey).toFinset.card ≤ (2 : Int).toNat :=
  ⟨mem_select.mpr ⟨by decide, rfl⟩,
   (c2_topk_bound demoBase "M" 2 "MA" (outputFor demoBase "M" "MA" 2)
     (mem_select.mpr ⟨by decide, rfl⟩)).1⟩

/-- C3: the selection used by the aggregator consists of the `k`
highest-mean groups: it has `min k n` entries for `n` groups, no group outside it
has a mean strictly above the mean of any selected group, it is ranked
by mean descending, and the key of every output row belongs to it. -/
theorem c3_topk_ordering (base : Frame) (mineral : String) (k : Int)
    (m : String) (rows : List OutRow)
    (hm : (m, rows) ∈ select_topk_pairs base mineral k) :
    ((nlargest k (means_df base mineral m)).length
        = min k.toNat (means_df base mineral m).length)
    ∧ (∀ e ∈ means_df base mineral m, e ∉ nlargest k (means_df base mineral m) →
        ∀ e' ∈ nlargest k (means_df base mineral m), e.avg ≤ e'.avg)
    ∧ List.Sorted avgGe (nlargest k (means_df base mineral m))
    ∧ ∀ r ∈ rows, outKey r ∈ top_keys base mineral m k := by
  obtain ⟨hmm, rfl⟩ := mem_select.mp hm
  refine ⟨?_, ?_, ?_, ?_⟩
  · unfold nlargest
    rw [List.length_take, (List.perm_insertionSort avgGe _).length_eq]
  · intro e he hnot e' he'
    have hsorted := List.sorted_insertionSort avgGe (means_df base mineral m)
    have hmem : e ∈ List.insertionSort avgGe (means_df base mineral m) :=
      (List.perm_insertionSort avgGe _).mem_iff.mpr he
    have hdrop : e ∈ (List.insertionSort avgGe (means_df base mineral m)).drop k.toNat := by
      have hsplit := List.take_append_drop k.toNat
        (List.insertionSort avgGe (means_df base mineral m))
      rw [← hsplit] at hmem
      rcases List.mem_append.mp hmem with h | h
      · exact absurd h hnot
      · exact h
    exact hsorted.rel_of_mem_take_of_mem_drop he' hdrop
  · exact List.Pairwise.sublist (List.take_sublist _ _)
      (List.sorted_insertionSort avgGe _)
  · intro r hr
    obtain ⟨r0, h0, htk, rfl⟩ := of_mem_outputFor hr
    exact htk

/-- C3 witness: on the demo table with `k = 2` and metric `"MA"`, the
selection has two entries (the number of groups). -/
theorem c3_witness :
    (("MA", outputFor demoBase "M" "MA" 2) ∈ select_topk_pairs demoBase "M" 2)
    ∧ (nlargest 2 (means_df demoBase "M" "MA")).length
        = min (2 : Int).toNat (means_df demoBase "M" "MA").length :=
  ⟨mem_select.mpr ⟨by decide, rfl⟩,
   (c3_topk_ordering demoBase "M" 2 "MA" (outputFor demoBase "M" "MA" 2)
     (mem_select.mpr ⟨by decide, rfl⟩)).1⟩

/-- C4: when the `"Total"` metric is synthesized, a row that is null in
every matched determinand column gets a null `"Total"` value and is
dropped from `Filtered_Base` (contributing no `"Total"` observation),
while a row with at least one non-null matched value gets the sum of
exactly its non-null matched values. -/
theorem c4_total (base : Frame) (mineral : String) (r : Row)
    (_hr : r ∈ base.rows)
    (h2 : 1 < (matchedCols base.valueCols mineral).length) :
    ((∀ c ∈ matchedCols base.valueCols mineral, rowVal r c = none) →
        metricVal base mineral r "Total" = none ∧ r ∉ FRows base mineral)
    ∧ ((∃ c ∈ matchedCols base.valueCols mineral, (rowVal r c).isSome) →
        metricVal base mineral r "Total"
          = some (((matchedCols base.valueCols mineral).filterMap (rowVal r)).sum)) := by
  constructor
  · intro hall
    have hnil : (matchedCols base.valueCols mineral).filterMap (rowVal r) = [] :=
      List.filterMap_eq_nil_iff.mpr hall
    constructor
    · unfold metricVal
      rw [if_pos ⟨rfl, h2⟩]
      unfold totalVal
      rw [hnil]
      rfl
    · unfold FRows
      have hne : ¬ ((matchedCols base.valueCols mineral).isEmpty = true) := by
        intro habs
        rw [List.isEmpty_iff] at habs
        rw [habs] at h2
        simp at h2
      rw [if_neg hne]
      intro hmem
      have hany := (List.mem_filter.mp hmem).2
      rw [List.any_eq_true] at hany
      obtain ⟨c, hc, hcs⟩ := hany
      rw [hall c hc] at hcs
      simp at hcs
  · rintro ⟨c, hc, hcs⟩
    obtain ⟨v, hv⟩ := Option.isSome_iff_exists.mp hcs
    have hvmem : v ∈ (matchedCols base.valueCols mineral).filterMap (rowVal r) :=
      List.mem_filterMap.mpr ⟨c, hc, hv⟩
    have hne : ¬ (((matchedCols base.valueCols mineral).filterMap (rowVal r)).isEmpty = true) := by
      intro habs
      rw [List.isEmpty_iff] at habs
      rw [habs] at hvmem
      exact List.not_mem_nil v hvmem
    unfold metricVal
    rw [if_pos ⟨rfl, h2⟩]
    unfold totalVal
    rw [if_neg hne]

/-- C4 witness: the all-null demo row `d4` gets a null `"Total"` value
and is dropped from `Filtered_Base`. -/
theorem c4_witness :
    (d4 ∈ demoBase.rows ∧ 1 < (matchedCols demoBase.valueCols "M").length
      ∧ ∀ c ∈ matchedCols demoBase.valueCols "M", rowVal d4 c = none)
    ∧ (metricVal demoBase "M" d4 "Total" = none ∧ d4 ∉ FRows demoBase "M") :=
  ⟨⟨by decide, by decide, by decide⟩,
   (c4_total demoBase "M" d4 (by decide) (by decide)).1 (by decide)⟩

/-- When exactly one column matches, every `Filtered_Base` row bears a
non-null value in that column (`dropna(how="all")` on one column). -/
theorem rowVal_isSome_of_singleton {base : Frame} {mineral c : String}
    (hc_eq : matchedCols base.valueCols mineral = [c]) {r0 : Row}
    (h0 : r0 ∈ FRows base mineral) : (rowVal r0 c).isSome := by
  unfold FRows at h0
  rw [hc_eq] at h0
  rw [if_neg (by simp)] at h0
  have := (List.mem_filter.mp h0).2
  simpa using this

/-- C5 counterexample: with two matched columns and `k = 1`, the `"MA"`
output of `cex5Base` contains the row of observation `rA`, whose
`"MA"` value is null — a null row is not absent from the output. -/
theorem c5_counterexample :
    (("MA", outputFor cex5Base "M" "MA" 1) ∈ select_topk_pairs cex5Base "M" 1)
    ∧ mkOut cex5Base "M" "MA" rA ∈ outputFor cex5Base "M" "MA" 1
    ∧ (mkOut cex5Base "M" "MA" rA).monthly = none :=
  ⟨mem_select.mpr ⟨by decide, rfl⟩,
   mkOut_mem_outputFor (by decide) (by decide),
   by decide⟩

/-- C5 amended: the output rows of a metric all bear a non-null value for
the metric when the mineral matches exactly one column, or when the
metric is the synthesized `"Total"`; in general (several matched
columns, per-determinand metric) the filter drops only all-null rows,
so a row null in one metric but non-null in a sibling may remain. -/
theorem c5_amended_nonnull (base : Frame) (mineral : String) (k : Int)
    (m : String) (rows : List OutRow)
    (hm : (m, rows) ∈ select_topk_pairs base mineral k)
    (hc : (matchedCols base.valueCols mineral).length = 1 ∨ m = "Total") :
    ∀ r ∈ rows, r.monthly.isSome := by
  obtain ⟨hmm, rfl⟩ := mem_select.mp hm
  intro r hr
  obtain ⟨r0, h0, htk, rfl⟩ := of_mem_outputFor hr
  show (metricVal base mineral r0 m).isSome
  rcases hc with h1 | hT
  · obtain ⟨c, hc_eq⟩ := List.length_eq_one.mp h1
    have hmem : m ∈ matchedCols base.valueCols mineral := by
      unfold mmList at hmm
      rw [if_neg (by rw [hc_eq]; simp)] at hmm
      exact hmm
    have hmc : m = c := by
      rw [hc_eq] at hmem
      simpa using hmem
    have hval := rowVal_isSome_of_singleton hc_eq h0
    unfold metricVal
    rw [if_neg (by rintro ⟨_, hlen⟩; rw [hc_eq] at hlen; simp at hlen)]
    rw [hmc]
    exact hval
  · subst hT
    by_cases h2 : 1 < (matchedCols base.valueCols mineral).length
    · unfold metricVal
      rw [if_pos ⟨rfl, h2⟩]
      unfold FRows at h0
      have hne : ¬ ((matchedCols base.valueCols mineral).isEmpty = true) := by
        intro habs
        rw [List.isEmpty_iff] at habs
        rw [habs] at h2
        simp at h2
      rw [if_neg hne] at h0
      have hany := (List.mem_filter.mp h0).2
      rw [List.any_eq_true] at hany
      obtain ⟨c, hc', hcs⟩ := hany
      obtain ⟨v, hv⟩ := Option.isSome_iff_exists.mp hcs
      have hvmem : v ∈ (matchedCols base.valueCols mineral).filterMap (rowVal r0) :=
        List.mem_filterMap.mpr ⟨c, hc', hv⟩
      unfold totalVal
      rw [if_neg (by
        intro habs
        rw [List.isEmpty_iff] at habs
        rw [habs] at hvmem
        exact List.not_mem_nil v hvmem)]
      rfl
    · have hmem : "Total" ∈ matchedCols base.valueCols mineral := by
        unfold mmList at hmm
        rw [if_neg h2] at hmm
        exact hmm
      have hge : 0 < (matchedCols base.valueCols mineral).length :=
        List.length_pos.mpr (List.ne_nil_of_mem hmem)
      have h1 : (matchedCols base.valueCols mineral).length = 1 :=
        le_antisymm (Nat.not_lt.mp h2) hge
      obtain ⟨c, hc_eq⟩ := List.length_eq_one.mp h1
      have hcT : c = "Total" := by
        rw [hc_eq] at hmem
        exact (by simpa using hmem : ("Total" : String) = c).symm
      have hval := rowVal_isSome_of_singleton hc_eq h0
      unfold metricVal
      rw [if_neg (fun h => h2 h.2)]
      rw [hcT] at hval
      exact hval

/-- C5 amended witness: with a single matched column, a concrete output
row of `oneColBase` bears a non-null metric value. -/
theorem c5_witness :
    ((("Magnesium (ug/l)", outputFor oneColBase "Magnesium" "Magnesium (ug/l)" 5)
        ∈ select_topk_pairs oneColBase "Magnesium" 5)
      ∧ ((matchedCols oneColBase.valueCols "Magnesium").length = 1
          ∨ "Magnesium (ug/l)" = "Total"))
    ∧ (mkOut oneColBase "Magnesium" "Magnesium (ug/l)" o1).monthly.isSome :=
  ⟨⟨mem_select.mpr ⟨by decide, rfl⟩, Or.inl (by decide)⟩,
   c5_amended_nonnull oneColBase "Magnesium" 5 "Magnesium (ug/l)"
     (outputFor oneColBase "Magnesium" "Magnesium (ug/l)" 5)
     (mem_select.mpr ⟨by decide, rfl⟩) (Or.inl (by decide))
     (mkOut oneColBase "Magnesium" "Magnesium (ug/l)" o1)
     (mkOut_mem_outputFor (by decide)
       (mem_top_keys_of_le (by decide)
         (@mem_means_of_key oneColBase "Magnesium" "Magnesium (ug/l)" kS1 (by decide))))⟩

/-- C9 counterexample: when the single matched value column is itself
named `"Total"`, the result mapping does contain a `"Total"` key and
`build_geo_fig` succeeds instead of raising `KeyError`. -/
theorem c9_counterexample :
    (matchedCols cex9Base.valueCols "Total").length = 1
    ∧ ((select_topk_pairs cex9Base "Total" 5).lookup "Total").isSome = true
    ∧ (build_geo_fig (select_topk_pairs cex9Base "Total" 5) "Total" 5).isOk = true := by
  refine ⟨by decide, by decide, by decide⟩

/-- C9 amended: when the chosen mineral matches exactly one value
column and that column is not itself named `"Total"`, the result
mapping has no `"Total"` key and `build_geo_fig` raises `KeyError`. -/
theorem c9_amended_keyerror (base : Frame) (mineral : String) (k : Int)
    (h1 : (matchedCols base.valueCols mineral).length = 1)
    (h2 : "Total" ∉ matchedCols base.valueCols mineral) :
    (select_topk_pairs base mineral k).lookup "Total" = none
    ∧ build_geo_fig (select_topk_pairs base mineral k) mineral k
        = Except.error GeoErr.keyError := by
  obtain ⟨c, hc_eq⟩ := List.length_eq_one.mp h1
  have hcT : ¬ (("Total" : String) = c) := by
    rw [hc_eq] at h2
    intro h
    exact h2 (by rw [h]; exact List.mem_singleton_self c)
  have hsel : select_topk_pairs base mineral k = [(c, outputFor base mineral c k)] := by
    unfold select_topk_pairs mmList
    rw [if_neg (by rw [hc_eq]; simp), hc_eq]
    rfl
  have hbeq : (("Total" : String) == c) = false := beq_eq_false_iff_ne.mpr hcT
  have hlk : (select_topk_pairs base mineral k).lookup "Total" = none := by
    rw [hsel]
    simp [List.lookup, hbeq]
  refine ⟨hlk, ?_⟩
  unfold build_geo_fig
  rw [hlk]

/-- C9 amended witness: on the one-column magnesium table, the result
has no `"Total"` key and `build_geo_fig` raises `KeyError`. -/
theorem c9_witness :
    ((matchedCols oneColBase.valueCols "Magnesium").length = 1
      ∧ "Total" ∉ matchedCols oneColBase.valueCols "Magnesium")
    ∧ ((select_topk_pairs oneColBase "Magnesium" 5).lookup "Total" = none
      ∧ build_geo_fig (select_topk_pairs oneColBase "Magnesium" 5) "Magnesium" 5
          = Except.error GeoErr.keyError) :=
  ⟨⟨by decide, by decide⟩,
   c9_amended_keyerror oneColBase "Magnesium" 5 (by decide) (by decide)⟩

/-- The column renaming of `build_dot_fig` is idempotent. -/
theorem renameCol_idem (c : String) : renameCol (renameCol c) = renameCol c := by
  unfold renameCol
  by_cases h1 : c = "monthly concentration"
  · subst h1; decide
  · by_cases h2 : c = "YearMonth"
    · subst h2; decide
    · simp [h1, h2]

/-- The in-place frame rename of `build_dot_fig` is idempotent. -/
theorem renameFrame_idem (d : NFrame) : renameFrame (renameFrame d) = renameFrame d := by
  induction d with
  | nil => rfl
  | cons p d ih =>
      show (renameCol (renameCol p.1), p.2) :: renameFrame (renameFrame d)
        = (renameCol p.1, p.2) :: renameFrame d
      rw [renameCol_idem, ih]

/-- Re-running the `build_dot_fig` loop body on an already-renamed
frame changes nothing. -/
theorem dotStep_rename (p : String × NFrame) :
    dotStep (p.1, renameFrame p.2) = dotStep p := by
  unfold dotStep
  rw [renameFrame_idem]

/-- C6 counterexample: `build_dot_fig` changes its input mapping in
place (the `"monthly concentration"` and `"YearMonth"` columns are
renamed), so it does mutate an input entity. -/
theorem c6_counterexample : (build_dot_fig agg6).2 ≠ agg6 := by decide

/-- C6 amended: `select_topk_pairs` reads its input without modifying
it, but `build_dot_fig` renames two columns of its input frames in
place; the mutation is idempotent, so serving a second request on the
mutated state yields the same figures and the same state. -/
theorem c6_amended_idem (month_agg : List (String × NFrame)) :
    build_dot_fig ((build_dot_fig month_agg).2) = build_dot_fig month_agg := by
  unfold build_dot_fig
  have h : ((month_agg.map dotStep).map Prod.snd).map dotStep = month_agg.map dotStep := by
    induction month_agg with
    | nil => rfl
    | cons p l ih =>
        show dotStep ((dotStep p).2) :: ((l.map dotStep).map Prod.snd).map dotStep
          = dotStep p :: l.map dotStep
        rw [ih]
        show dotStep (p.1, renameFrame p.2) :: _ = _
        rw [dotStep_rename]
  rw [h]

end MineralDB
